import Mathlib

/-!
Verification of the `capture` request pipeline of the go-janrain repository.

The Go sources are shallowly embedded:
* Go `map[string]T` values are association lists (`AssocMap`) whose key lists
  are duplicate-free; map iteration order is the list order, and theorems that
  depend on order-independence quantify over permutations.
* `url.Values` (`map[string][]string`) is `AssocMap (List String)`.
* Machine integers are `Nat` with explicit reduction `% 2 ^ 32` where overflow
  matters (SHA-1).
* The HTTP transport is a function parameter (`send`), mirroring the spec's
  treatment of the transport as an external capability; fallible Go functions
  return `Option`/`Except`.
-/

/-! ## Byte-order string comparison (Go `sort.Strings`)

Go compares strings bytewise.  For valid UTF-8, bytewise order coincides with
code-point order, so we compare `Char` code points lexicographically.
`sortStrings` is Go's `sort.Strings`: the sorting algorithm is irrelevant
because the sorted permutation is unique; we use insertion sort. -/

def lexLeb : List Char → List Char → Bool
  | [], _ => true
  | _ :: _, [] => false
  | a :: as, b :: bs =>
    if a.toNat < b.toNat then true
    else if b.toNat < a.toNat then false
    else lexLeb as bs

def strLeb (a b : String) : Bool := lexLeb a.data b.data

def strLe (a b : String) : Prop := strLeb a b = true

instance : DecidableRel strLe := fun a b => instDecidableEqBool (strLeb a b) true

def sortStrings (l : List String) : List String := List.insertionSort strLe l

/-! ## Fixed-width decimal rendering and digit parsing

Shared by the `capture` date/time formats and the HMAC timestamp.  These embed
the semantics of Go's reference-layout formatting for the two fixed layouts
used by the repository (`"2006-01-02"` and
`"2006-01-02 15:04:05.999999999 -0700"`) and for the HMAC layout
`"2006-01-02 15:04:05"`. -/

def digitChar (d : Nat) : Char := Char.ofNat (48 + d)

def isDigitChar (c : Char) : Bool := 48 ≤ c.toNat && c.toNat ≤ 57

def digitVal (c : Char) : Nat := c.toNat - 48

def pad2 (n : Nat) : List Char := [digitChar (n / 10), digitChar (n % 10)]

def pad4 (n : Nat) : List Char :=
  [digitChar (n / 1000), digitChar (n / 100 % 10), digitChar (n / 10 % 10), digitChar (n % 10)]

/-- Value of a digit string, most significant digit first. -/
def digitsVal (l : List Char) : Nat := l.foldl (fun a c => a * 10 + digitVal c) 0

/-- The `k` least significant decimal digits of `n`, least significant first. -/
def padRev : Nat → Nat → List Char
  | 0, _ => []
  | k + 1, n => digitChar (n % 10) :: padRev k (n / 10)

/-- The `k`-digit zero-padded decimal rendering of `n` (for `n < 10 ^ k`). -/
def padDigits (k n : Nat) : List Char := (padRev k n).reverse

def readDigit (c : Char) : Option Nat :=
  if isDigitChar c then some (digitVal c) else none

def read2 : List Char → Option (Nat × List Char)
  | c1 :: c2 :: rest =>
    match readDigit c1, readDigit c2 with
    | some d1, some d2 => some (d1 * 10 + d2, rest)
    | _, _ => none
  | _ => none

def read4 : List Char → Option (Nat × List Char)
  | c1 :: c2 :: c3 :: c4 :: rest =>
    match readDigit c1, readDigit c2, readDigit c3, readDigit c4 with
    | some d1, some d2, some d3, some d4 =>
      some (((d1 * 10 + d2) * 10 + d3) * 10 + d4, rest)
    | _, _, _, _ => none
  | _ => none

def expectChar (c : Char) : List Char → Option (List Char)
  | c' :: rest => if c' = c then some rest else none
  | [] => none

/-! ## Calendar (capture.go `DateFormat` / `TimeFormat`)

`GoTime` is the broken-down form of a Go `time.Time` instant: calendar fields
plus nanoseconds and the zone offset in minutes (the two layouts print the
offset as `±hhmm`).  `toEpochNanos` gives the instant it denotes, via the
standard civil-calendar day count. -/

structure GoTime where
  year : Nat
  month : Nat
  day : Nat
  hour : Nat
  minute : Nat
  sec : Nat
  nanos : Nat
  offMin : Int
  deriving DecidableEq, Repr

def isLeap (y : Nat) : Bool := (y % 4 = 0 && y % 100 ≠ 0) || y % 400 = 0

def daysInMonth (y m : Nat) : Nat :=
  if m = 2 then (if isLeap y then 29 else 28)
  else if m = 4 ∨ m = 6 ∨ m = 9 ∨ m = 11 then 30
  else 31

/-- Days since 1970-01-01 of a civil date (Hinnant's algorithm). -/
def daysFromCivil (y : Int) (m d : Nat) : Int :=
  let yAdj : Int := if m ≤ 2 then y - 1 else y
  let era : Int := (if 0 ≤ yAdj then yAdj else yAdj - 399) / 400
  let yoe : Int := yAdj - era * 400
  let mp : Int := if 2 < m then (m : Int) - 3 else (m : Int) + 9
  let doy : Int := (153 * mp + 2) / 5 + (d : Int) - 1
  let doe : Int := yoe * 365 + yoe / 4 - yoe / 100 + doy
  era * 146097 + doe - 719468

/-- Nanoseconds since the Unix epoch of the instant a `GoTime` denotes. -/
def toEpochNanos (t : GoTime) : Int :=
  ((daysFromCivil t.year t.month t.day * 86400
      + t.hour * 3600 + t.minute * 60 + t.sec : Int) - t.offMin * 60) * 1000000000
    + (t.nanos : Int)

/-- A `GoTime` whose fields lie in the ranges Go's formatter and parser handle
for the two capture layouts (years of four digits, minute-granular offsets
below one day). -/
def GoTime.valid (t : GoTime) : Prop :=
  t.year ≤ 9999 ∧ 1 ≤ t.month ∧ t.month ≤ 12 ∧ 1 ≤ t.day ∧ t.day ≤ daysInMonth t.year t.month ∧
    t.hour ≤ 23 ∧ t.minute ≤ 59 ∧ t.sec ≤ 59 ∧ t.nanos ≤ 999999999 ∧ t.offMin.natAbs ≤ 1439

instance (t : GoTime) : Decidable t.valid := by unfold GoTime.valid; infer_instance

/-- Rendering of the date fields with layout `"2006-01-02"`. -/
def dateChars (t : GoTime) : List Char :=
  pad4 t.year ++ '-' :: pad2 t.month ++ '-' :: pad2 t.day

/-- Go trims trailing zeros when formatting with the layout fragment
`".999999999"`, omitting the fraction entirely when it is zero. -/
def fracChars (nanos : Nat) : List Char :=
  if nanos = 0 then []
  else '.' :: ((padRev 9 nanos).dropWhile (fun c => c = '0')).reverse

/-- Rendering of the zone offset with layout fragment `"-0700"`. -/
def offChars (offMin : Int) : List Char :=
  (if offMin < 0 then '-' else '+') :: (pad2 (offMin.natAbs / 60) ++ pad2 (offMin.natAbs % 60))

/-- Rendering with layout `"2006-01-02 15:04:05.999999999 -0700"`. -/
def timestampChars (t : GoTime) : List Char :=
  dateChars t ++ ' ' :: pad2 t.hour ++ ':' :: pad2 t.minute ++ ':' :: pad2 t.sec
    ++ fracChars t.nanos ++ ' ' :: offChars t.offMin

/-- capture.Datestamp: `t.Format(DateFormat)`. -/
def Datestamp (t : GoTime) : String := String.mk (dateChars t)

/-- capture.Timestamp: `t.Format(TimeFormat)`. -/
def Timestamp (t : GoTime) : String := String.mk (timestampChars t)

/-- Parse the date fields of layout `"2006-01-02"`, without the trailing
end-of-input check, returning (year, month, day) and the rest. -/
def parseDateFields (l : List Char) : Option ((Nat × Nat × Nat) × List Char) :=
  match read4 l with
  | none => none
  | some (y, l) =>
    match expectChar '-' l with
    | none => none
    | some l =>
      match read2 l with
      | none => none
      | some (mo, l) =>
        match expectChar '-' l with
        | none => none
        | some l =>
          match read2 l with
          | none => none
          | some (d, l) => some ((y, mo, d), l)

/-- Range checks Go's parser applies to date fields. -/
def checkDate (y mo d : Nat) : Bool :=
  decide (1 ≤ mo) && decide (mo ≤ 12) && decide (1 ≤ d) && decide (d ≤ daysInMonth y mo)

/-- capture.Date: `time.Parse(DateFormat, s)`.  A missing zone means UTC and
missing clock fields are zero. -/
def DateParse (s : String) : Option GoTime :=
  match parseDateFields s.data with
  | some ((y, mo, d), []) =>
    if checkDate y mo d then some ⟨y, mo, d, 0, 0, 0, 0, 0⟩ else none
  | _ => none

/-- Parse an optional fractional second for the layout fragment `".999999999"`:
absent when the next character is not a dot; otherwise a dot followed by at
most nine digits, scaled to nanoseconds. -/
def parseOptFrac (l : List Char) : Option (Nat × List Char) :=
  match l with
  | '.' :: rest =>
    let ds := rest.takeWhile isDigitChar
    if ds.length = 0 ∨ 9 < ds.length then none
    else some (digitsVal ds * 10 ^ (9 - ds.length), rest.dropWhile isDigitChar)
  | _ => some (0, l)

/-- Parse the zone offset of layout fragment `"-0700"`. -/
def parseOff (l : List Char) : Option (Int × List Char) :=
  match l with
  | c :: rest =>
    if c = '+' ∨ c = '-' then
      match read2 rest with
      | none => none
      | some (h, rest) =>
        match read2 rest with
        | none => none
        | some (m, rest) =>
          let v : Int := (h * 60 + m : Nat)
          some (if c = '-' then -v else v, rest)
    else none
  | [] => none

/-- Range checks Go's parser applies to clock fields. -/
def checkClock (h mi s : Nat) : Bool :=
  decide (h ≤ 23) && decide (mi ≤ 59) && decide (s ≤ 59)

/-- capture.Time: `time.Parse(TimeFormat, s)` for the layout
`"2006-01-02 15:04:05.999999999 -0700"`. -/
def TimeParse (s : String) : Option GoTime :=
  match parseDateFields s.data with
  | some ((y, mo, d), rest) =>
    match expectChar ' ' rest with
    | none => none
    | some rest =>
      match read2 rest with
      | none => none
      | some (h, rest) =>
        match expectChar ':' rest with
        | none => none
        | some rest =>
          match read2 rest with
          | none => none
          | some (mi, rest) =>
            match expectChar ':' rest with
            | none => none
            | some rest =>
              match read2 rest with
              | none => none
              | some (sec, rest) =>
                match parseOptFrac rest with
                | none => none
                | some (ns, rest) =>
                  match expectChar ' ' rest with
                  | none => none
                  | some rest =>
                    match parseOff rest with
                    | some (off, []) =>
                      if checkDate y mo d && checkClock h mi sec then
                        some ⟨y, mo, d, h, mi, sec, ns, off⟩
                      else none
                    | _ => none
  | none => none

/-- The timestamp layout used by `ClientCredentials.Authorize`
(`"2006-01-02 15:04:05"`, applied to `time.Now().UTC()`): second precision,
fixed width, no zone. -/
def authTimestamp (t : GoTime) : String :=
  String.mk (dateChars t ++ ' ' :: pad2 t.hour ++ ':' :: pad2 t.minute ++ ':' :: pad2 t.sec)

/-! ## JSON values (go-simplejson and encoding/json)

`JsonVal` models a decoded Go JSON value; numbers are modelled as integers
(the envelope fields the repository reads are integral).  `jsGet`,
`mustString` and `mustInt` embed go-simplejson's `Get`, `MustString` and
`MustInt`: missing fields and type mismatches yield the zero value. -/

inductive JsonVal where
  | null
  | bool (b : Bool)
  | num (n : Int)
  | str (s : String)
  | arr (elems : List JsonVal)
  | obj (fields : List (String × JsonVal))

/-- simplejson `js.Get(key)`: the named field of an object, otherwise a nil
Json (missing field, or receiver not an object). -/
def jsGet (js : JsonVal) (key : String) : JsonVal :=
  match js with
  | .obj fields =>
    match fields.lookup key with
    | some v => v
    | none => .null
  | _ => .null

/-- simplejson `MustString`: the string value, or `""` on any failure. -/
def mustString : JsonVal → String
  | .str s => s
  | _ => ""

/-- simplejson `MustInt`: the numeric value, or `0` on any failure. -/
def mustInt : JsonVal → Int
  | .num n => n
  | _ => 0

def escapeJsonChar (c : Char) : List Char :=
  if c = '"' then ['\\', '"']
  else if c = '\\' then ['\\', '\\']
  else if c = '\n' then ['\\', 'n']
  else if c = '\r' then ['\\', 'r']
  else if c = '\t' then ['\\', 't']
  else if c = '<' then "\\u003c".data
  else if c = '>' then "\\u003e".data
  else if c = '&' then "\\u0026".data
  else if c.toNat < 32 then "\\u00".data ++ [digitChar (c.toNat / 16), digitChar (c.toNat % 16)]
  else [c]

/-- The quoted, escaped JSON rendering of a Go string. -/
def quoteStr (s : String) : String :=
  "\"" ++ String.mk (s.data.flatMap escapeJsonChar) ++ "\""

/-- encoding/json `Marshal`, restricted to the values `JsonVal` models; object
fields are emitted in their list order. -/
def renderJson : JsonVal → String
  | .null => "null"
  | .bool true => "true"
  | .bool false => "false"
  | .num n => toString n
  | .str s => quoteStr s
  | .arr elems => "[" ++ String.intercalate "," (elems.attach.map (fun e => renderJson e.1)) ++ "]"
  | .obj fields =>
    "\x7b"
      ++ String.intercalate ","
        (fields.attach.map (fun f => quoteStr f.1.1 ++ ":" ++ renderJson f.1.2))
      ++ "\x7d"
decreasing_by
  · have h := List.sizeOf_lt_of_mem e.2
    simp only [JsonVal.arr.sizeOf_spec]
    omega
  · have h := List.sizeOf_lt_of_mem f.2
    obtain ⟨⟨a, b⟩, hf⟩ := f
    simp only [JsonVal.obj.sizeOf_spec, Prod.mk.sizeOf_spec] at h ⊢
    omega

/-! ## Association-list maps (Go maps) -/

abbrev AssocMap (α : Type) := List (String × α)

/-- Go map assignment `m[k] = v`: replace in place, or append a new binding. -/
def mapSet {α : Type} (m : AssocMap α) (k : String) (v : α) : AssocMap α :=
  match m with
  | [] => [(k, v)]
  | (k', v') :: rest => if k' = k then (k, v) :: rest else (k', v') :: mapSet rest k v

/-- Go map lookup `m[k]` (with its presence bit). -/
def mapGet? {α : Type} (m : AssocMap α) (k : String) : Option α := m.lookup k

/-- The keys of a map have no duplicates (invariant of every Go map). -/
abbrev mapWF {α : Type} (m : AssocMap α) : Prop := (m.map Prod.fst).Nodup

/-- One `for k, v := range src { dst[k] = v }` loop. -/
def mapInsertAll {α : Type} (dst src : AssocMap α) : AssocMap α :=
  src.foldl (fun acc kv => mapSet acc kv.1 kv.2) dst

/-- The merge pattern of `Client.merge`: copy the client-level map into a fresh
map, then copy the call-level map over it (both header and parameter merges
have exactly this shape). -/
def goMerge {α : Type} (defaults overrides : AssocMap α) : AssocMap α :=
  mapInsertAll (mapInsertAll [] defaults) overrides

/-! ## The capture client (client.go of src/unnamed/part_000, with the error
taxonomy of src/capture/capture.go) -/

/-- Go `url.Values`: `map[string][]string`. -/
abbrev ValuesMap := AssocMap (List String)

/-- `url.Values.Set`: replace the key's value list with a one-element list. -/
def valuesSet (m : ValuesMap) (k v : String) : ValuesMap := mapSet m k [v]

/-- `http.Header.Set` (we elide Go's header-name canonicalisation, which no
code path depends on). -/
def headerSet (m : ValuesMap) (k v : String) : ValuesMap := mapSet m k [v]

/-- A parameter value held in a `Params` map (`map[string]interface{}`): a Go
string, a JSON-marshalable value, or a value `json.Marshal` rejects (function,
channel, cyclic data, ...). -/
inductive GoValue where
  | str (s : String)
  | json (j : JsonVal)
  | bad

abbrev Params := AssocMap GoValue

/-- `json.Marshal` on a parameter value. -/
def jsonMarshal : GoValue → Option String
  | .str s => some (renderJson (.str s))
  | .json j => some (renderJson j)
  | .bad => none

/-- The per-value step of `Params.formValues`: a string is used as-is, any
other value is replaced by its JSON text, and a marshal failure aborts. -/
def formValue1 : GoValue → Option String
  | .str s => some s
  | v => jsonMarshal v

/-- The loop of `Params.formValues`, accumulating into `vals` via
`vals.Set(k, val)`. -/
def formValuesGo : Params → ValuesMap → Option ValuesMap
  | [], vals => some vals
  | (k, v) :: rest, vals =>
    match formValue1 v with
    | none => none
    | some val => formValuesGo rest (valuesSet vals k val)

/-- `Params.formValues`. -/
def formValues (ps : Params) : Option ValuesMap := formValuesGo ps []

/-- Endpoint resolution at the top of `Client.merge`.  Go reads `method[0]`
unconditionally, so the empty method string indexes out of range: we model the
panic as `none`. -/
def resolveEndpoint (baseurl method : String) : Option String :=
  match method.data with
  | [] => none
  | c :: _ =>
    let endpoint := baseurl
    let endpoint := if c ≠ '/' then endpoint ++ "/" else endpoint
    some (endpoint ++ method)

/-- The media type of a response: `contentType` strips everything from the
first `';'` and trims surrounding white space (Go `strings.SplitN(v, ";", 2)[0]`
and `strings.TrimFunc(·, unicode.IsSpace)`). -/
def goIsSpace (c : Char) : Bool :=
  c = ' ' || c = '\t' || c = '\n' || c = '\x0b' || c = '\x0c' || c = '\r' ||
    c.toNat = 133 || c.toNat = 160 || c.toNat = 5760 ||
    (8192 ≤ c.toNat && c.toNat ≤ 8202) || c.toNat = 8232 || c.toNat = 8233 ||
    c.toNat = 8239 || c.toNat = 8287 || c.toNat = 12288

def trimSpace (l : List Char) : List Char :=
  ((l.dropWhile goIsSpace).reverse.dropWhile goIsSpace).reverse

def contentType (ctHeader : String) : String :=
  String.mk (trimSpace (ctHeader.data.takeWhile (fun c => c ≠ ';')))

/-- The decoded transport result `perform` inspects: the `Content-Type` header
value (the only header the classifier reads), the HTTP status code, and the
body — `some js` when the body parses as JSON, `none` when parsing fails. -/
structure HttpResp where
  contentTypeHdr : String
  statusCode : Nat
  body : Option JsonVal

/-- The captured response data attached to errors (capture.go
`HttpResponseData`, with the header collection reduced to the only header the
pipeline reads). -/
structure HttpResponseData where
  StatusCode : Nat
  ContentTypeHdr : String
  Body : String

/-- capture.go `RemoteError`. -/
structure RemoteError where
  RequestId : String
  Code : Int
  Kind : String
  Description : String
  Response : JsonVal
  ResponseData : HttpResponseData

/-- capture.go `NewRemoteError`: every field is drawn from the decoded
envelope via the simplejson zero-defaulting accessors. -/
def NewRemoteError (resp : HttpResp) (js : JsonVal) : RemoteError :=
  { RequestId := mustString (jsGet js "request_id")
    Code := mustInt (jsGet js "code")
    Kind := mustString (jsGet js "error")
    Description := mustString (jsGet js "error_description")
    Response := js
    ResponseData :=
      { StatusCode := resp.statusCode
        ContentTypeHdr := resp.contentTypeHdr
        Body := renderJson js } }

/-- capture.go `RemoteError.Error()`: `fmt.Sprintf("[%s] %s", Kind,
Description)`. -/
def RemoteError.errMsg (e : RemoteError) : String :=
  "[" ++ e.Kind ++ "] " ++ e.Description

/-- The error taxonomy of the response classifier (capture.go).  Diagnostic
payloads not examined by any claim are elided. -/
inductive CaptureError where
  | transport
  | jsonDecoder
  | contentTypeErr (mime : String)
  | remote (e : RemoteError)

/-- `Client.perform` after `client.http.Do` has produced a response: classify
by stripped media type, decode, and test the `stat` field of the envelope. -/
def perform (resp : HttpResp) : Except CaptureError JsonVal :=
  let mime := contentType resp.contentTypeHdr
  if mime = "application/json" ∨ mime = "text/json" then
    match resp.body with
    | none => .error .jsonDecoder
    | some js =>
      if mustString (jsGet js "stat") ≠ "ok" then .error (.remote (NewRemoteError resp js))
      else .ok js
  else .error (.contentTypeErr mime)

/-! ## SHA-1, HMAC and base64 (crypto/hmac, crypto/sha1, encoding/base64)

Bytes are `Nat`s below 256 and 32-bit words are `Nat`s reduced `% 2 ^ 32`. -/

def utf8Bytes (c : Char) : List Nat :=
  let n := c.toNat
  if n < 128 then [n]
  else if n < 2048 then [192 + n / 64, 128 + n % 64]
  else if n < 65536 then [224 + n / 4096, 128 + n / 64 % 64, 128 + n % 64]
  else [240 + n / 262144, 128 + n / 4096 % 64, 128 + n / 64 % 64, 128 + n % 64]

/-- The UTF-8 bytes of a Go string (`[]byte(s)`). -/
def strBytes (s : String) : List Nat := s.data.flatMap utf8Bytes

def w32 (n : Nat) : Nat := n % 4294967296

/-- Rotate a 32-bit word left by `s` bits. -/
def rotl32 (s n : Nat) : Nat := w32 (n * 2 ^ s) + n / 2 ^ (32 - s)

/-- Big-endian bytes of a 64-bit length. -/
def be64 (n : Nat) : List Nat :=
  [n / 2 ^ 56 % 256, n / 2 ^ 48 % 256, n / 2 ^ 40 % 256, n / 2 ^ 32 % 256,
   n / 2 ^ 24 % 256, n / 2 ^ 16 % 256, n / 2 ^ 8 % 256, n % 256]

/-- Big-endian bytes of a 32-bit word. -/
def be32 (n : Nat) : List Nat := [n / 2 ^ 24 % 256, n / 2 ^ 16 % 256, n / 2 ^ 8 % 256, n % 256]

/-- SHA-1 message padding: `0x80`, zeros to 56 mod 64, the bit length. -/
def sha1Pad (msg : List Nat) : List Nat :=
  msg ++ 128 :: List.replicate ((119 - msg.length % 64) % 64) 0 ++ be64 (msg.length * 8)

/-- Split into 64-byte blocks. -/
def chunks64 (l : List Nat) : List (List Nat) :=
  if h : l = [] then [] else l.take 64 :: chunks64 (l.drop 64)
termination_by l.length
decreasing_by
  have : l.length ≠ 0 := fun hl => h (List.eq_nil_of_length_eq_zero hl)
  simp [List.length_drop]
  omega

/-- Big-endian 32-bit words of a block. -/
def blockWords : List Nat → List Nat
  | a :: b :: c :: d :: rest => (((a * 256 + b) * 256 + c) * 256 + d) :: blockWords rest
  | _ => []

/-- One step of the SHA-1 message-schedule extension, keeping the words seen
so far in reverse order. -/
def extendStep (rws : List Nat) : List Nat :=
  rotl32 1 ((((rws.getD 2 0) ^^^ (rws.getD 7 0)) ^^^ (rws.getD 13 0)) ^^^ (rws.getD 15 0)) :: rws

/-- The 80-word schedule of a block (words w0..w15 extended to w0..w79). -/
def schedule (ws : List Nat) : List Nat :=
  (Nat.rec ws.reverse (fun _ acc => extendStep acc) 64 : List Nat).reverse

def sha1F (i b c d : Nat) : Nat :=
  if i < 20 then (b &&& c) ||| ((4294967295 ^^^ b) &&& d)
  else if i < 40 then (b ^^^ c) ^^^ d
  else if i < 60 then (b &&& c) ||| (b &&& d) ||| (c &&& d)
  else (b ^^^ c) ^^^ d

def sha1K (i : Nat) : Nat :=
  if i < 20 then 1518500249
  else if i < 40 then 1859775393
  else if i < 60 then 2400959708
  else 3395469782

/-- One of the 80 SHA-1 rounds. -/
def sha1Round (st : Nat × Nat × Nat × Nat × Nat) (iw : Nat × Nat) :
    Nat × Nat × Nat × Nat × Nat :=
  let (a, b, c, d, e) := st
  let (i, w) := iw
  let temp := w32 (rotl32 5 a + sha1F i b c d + e + sha1K i + w)
  (temp, a, rotl32 30 b, c, d)

/-- Process one 64-byte block. -/
def sha1Block (h : Nat × Nat × Nat × Nat × Nat) (block : List Nat) :
    Nat × Nat × Nat × Nat × Nat :=
  let (h0, h1, h2, h3, h4) := h
  let (a, b, c, d, e) := (schedule (blockWords block)).enum.foldl sha1Round (h0, h1, h2, h3, h4)
  (w32 (h0 + a), w32 (h1 + b), w32 (h2 + c), w32 (h3 + d), w32 (h4 + e))

/-- SHA-1 of a byte sequence (20 digest bytes). -/
def sha1 (msg : List Nat) : List Nat :=
  let (h0, h1, h2, h3, h4) :=
    (chunks64 (sha1Pad msg)).foldl sha1Block
      (1732584193, 4023233417, 2562383102, 271733878, 3285377520)
  be32 h0 ++ be32 h1 ++ be32 h2 ++ be32 h3 ++ be32 h4

/-- HMAC-SHA1 (`hmac.New(sha1.New, key)` followed by `Write`/`Sum`). -/
def hmacSha1 (key msg : List Nat) : List Nat :=
  let key := if 64 < key.length then sha1 key else key
  let key := key ++ List.replicate (64 - key.length) 0
  sha1 ((key.map (fun b => b ^^^ 92)) ++ sha1 ((key.map (fun b => b ^^^ 54)) ++ msg))

def b64Char (n : Nat) : Char :=
  "ABCDEFGHIJKLMNOPQRSTUVWXYZabcdefghijklmnopqrstuvwxyz0123456789+/".data.getD n 'A'

/-- Standard base64 with `=` padding (`base64.StdEncoding.EncodeToString`). -/
def base64Encode : List Nat → String
  | [] => ""
  | [a] => String.mk [b64Char (a / 4), b64Char (a % 4 * 16), '=', '=']
  | [a, b] => String.mk [b64Char (a / 4), b64Char (a % 4 * 16 + b / 16), b64Char (b % 16 * 4), '=']
  | a :: b :: c :: rest =>
    String.mk [b64Char (a / 4), b64Char (a % 4 * 16 + b / 16),
               b64Char (b % 16 * 4 + c / 64), b64Char (c % 64)]
      ++ base64Encode rest

/-! ## Authorization strategies (auth.go) -/

/-- capture.ClientCredentials. -/
structure ClientCredentials where
  Id : String
  Secret : String

/-- The `key=value` lines drawn from the form values: one per value of every
key (`fmt.Sprintf("%s=%s", k, v)`, not URL-encoded). -/
def kvPairs (values : ValuesMap) : List String :=
  values.flatMap (fun kv => kv.2.map (fun v => kv.1 ++ "=" ++ v))

/-- The canonical signing string of `ClientCredentials.Authorize`: the URL
path and the timestamp, then the sorted `key=value` lines, each written with
`fmt.Fprintln` (so each followed by a newline). -/
def canonicalString (path timestamp : String) (values : ValuesMap) : String :=
  let ps := sortStrings (kvPairs values)
  ps.foldl (fun acc p => acc ++ p ++ "\n") (path ++ "\n" ++ timestamp ++ "\n")

/-- The HMAC-SHA1 signature of the canonical string under the secret,
base64-encoded. -/
def hmacSignature (secret tosign : String) : String :=
  base64Encode (hmacSha1 (strBytes secret) (strBytes tosign))

/-- `ClientCredentials.Authorize` (auth.go lines 49-74).  The wall clock
enters as the broken-down UTC time `now`; the URL and form values are read,
the header is returned mutated. -/
def ClientCredentials.Authorize (creds : ClientCredentials) (now : GoTime)
    (uriPath : String) (header : ValuesMap) (values : ValuesMap) : ValuesMap :=
  let timestamp := authTimestamp now
  let tosign := canonicalString uriPath timestamp values
  let sig := hmacSignature creds.Secret tosign
  headerSet (headerSet header "Date" timestamp) "Authorization"
    ("Signature " ++ creds.Id ++ ":" ++ sig)

/-- capture.AccessToken `Authorize`: one header, never fails. -/
def AccessToken.Authorize (token : String) (header : ValuesMap) : ValuesMap :=
  headerSet header "Authorization" ("OAuth " ++ token)

/-- capture.ClientCredentialsSimple `Authorize`: id and secret as plain form
parameters, no headers. -/
def ClientCredentialsSimple.Authorize (creds : ClientCredentials) (values : ValuesMap) :
    ValuesMap :=
  valuesSet (valuesSet values "client_id" creds.Id) "client_secret" creds.Secret

/-! ## The client pipeline (`Client`, `ExecuteAuth`, `merge`, `prepare`) -/

/-- The `Authorization` interface: given the endpoint, headers and form
values, return an error or the mutated headers and values. -/
abbrev AuthFun := String → ValuesMap → ValuesMap → Except String (ValuesMap × ValuesMap)

/-- capture.Client (the transport handle is passed to `ExecuteAuth` as the
`send` capability). -/
structure GoClient where
  baseurl : String
  auth : Option AuthFun
  header : ValuesMap
  params : Params

/-- The outgoing request built by `prepare` ("POST" is always used, so the
body is the encoded form values and the form content type is set). -/
structure GoRequest where
  url : String
  header : ValuesMap
  values : ValuesMap

/-- client.go `prepare` for method "POST" (the percent-encoding of
`values.Encode()` is not modelled; the request carries the values). -/
def prepare (uri : String) (header : ValuesMap) (values : ValuesMap) : GoRequest :=
  { url := uri
    header := headerSet header "Content-Type" "application/x-www-form-urlencoded"
    values := values }

/-- The outcome of `Client.ExecuteAuth`. -/
inductive ExecError where
  | panicEmptyMethod
  | marshal
  | authErr (msg : String)
  | http (e : CaptureError)

/-- `Client.merge` (src/unnamed/part_000 lines 120-152): resolve the endpoint,
merge headers, merge params, and form-encode the merged params. -/
def clientMerge (client : GoClient) (method : String) (header : ValuesMap) (params : Params) :
    Except ExecError (String × ValuesMap × ValuesMap) :=
  match resolveEndpoint client.baseurl method with
  | none => .error .panicEmptyMethod
  | some endpoint =>
    let mergedheader := goMerge client.header header
    let mergedparams := goMerge client.params params
    match formValues mergedparams with
    | none => .error .marshal
    | some values => .ok (endpoint, mergedheader, values)

/-- `Client.ExecuteAuth`: merge, resolve the effective authorization (call
override, else client default, else none), authorize, prepare, dispatch via
the `send` capability, classify via `perform`.  `send req = none` is a
transport failure. -/
def ExecuteAuth (client : GoClient) (authOverride : Option AuthFun) (method : String)
    (header : ValuesMap) (params : Params) (send : GoRequest → Option HttpResp) :
    Except ExecError JsonVal :=
  match clientMerge client method header params with
  | .error e => .error e
  | .ok (uri, hdr, values) =>
    let auth := match authOverride with
      | some a => some a
      | none => client.auth
    match (match auth with
           | none => Except.ok (hdr, values)
           | some a => a uri hdr values) with
    | .error msg => .error (.authErr msg)
    | .ok (hdr, values) =>
      match send (prepare uri hdr values) with
      | none => .error (.http .transport)
      | some resp => (perform resp).mapError .http

/-! ## The filter package (capture/filter/filter.go) -/

namespace filter

/-- `filterSep` (filter.go lines 79-93): a filter `Interface` value enters as
its `Filter()` string. -/
def filterSep (filters : List String) (sep : String) : String :=
  match filters with
  | [] => ""
  | [f] => f
  | _ => String.intercalate sep (filters.map (fun f => "(" ++ f ++ ")"))

/-- Package-level `And`. -/
def And (filters : List String) : String := filterSep filters "AND"

/-- Package-level `Or`. -/
def Or (filters : List String) : String := filterSep filters "OR"

end filter

/-! ## String and order lemmas -/

theorem strAppend_assoc (a b c : String) : a ++ b ++ c = a ++ (b ++ c) :=
  String.ext (by simp [String.data_append])

theorem strJoin_cons (s : String) (l : List String) :
    String.join (s :: l) = s ++ String.join l :=
  String.ext (by simp [String.data_join, String.data_append])

theorem lexLeb_cons (x y : Char) (xs ys : List Char) :
    lexLeb (x :: xs) (y :: ys) = true ↔
      x.toNat < y.toNat ∨ (x.toNat = y.toNat ∧ lexLeb xs ys = true) := by
  simp only [lexLeb]
  by_cases h1 : x.toNat < y.toNat
  · simp [h1]
  · by_cases h2 : y.toNat < x.toNat
    · simp [h1, h2]; omega
    · have h3 : ¬ x.toNat = y.toNat → False := fun h => h (by omega)
      simp [h1, h2]
      omega

theorem lexLeb_total (a b : List Char) : lexLeb a b = true ∨ lexLeb b a = true := by
  induction a generalizing b with
  | nil => left; rfl
  | cons x xs ih =>
    cases b with
    | nil => right; rfl
    | cons y ys =>
      rcases Nat.lt_trichotomy x.toNat y.toNat with h | h | h
      · left; rw [lexLeb_cons]; exact Or.inl h
      · rcases ih ys with h3 | h3
        · left; rw [lexLeb_cons]; exact Or.inr ⟨h, h3⟩
        · right; rw [lexLeb_cons]; exact Or.inr ⟨h.symm, h3⟩
      · right; rw [lexLeb_cons]; exact Or.inl h

theorem lexLeb_trans (a b c : List Char) (h1 : lexLeb a b = true) (h2 : lexLeb b c = true) :
    lexLeb a c = true := by
  induction a generalizing b c with
  | nil => rfl
  | cons x xs ih =>
    cases b with
    | nil => simp [lexLeb] at h1
    | cons y ys =>
      cases c with
      | nil => simp [lexLeb] at h2
      | cons z zs =>
        rw [lexLeb_cons] at h1 h2 ⊢
        rcases h1 with h1 | ⟨h1e, h1r⟩
        · rcases h2 with h2 | ⟨h2e, _⟩
          · exact Or.inl (by omega)
          · exact Or.inl (by omega)
        · rcases h2 with h2 | ⟨h2e, h2r⟩
          · exact Or.inl (by omega)
          · exact Or.inr ⟨by omega, ih ys zs h1r h2r⟩

theorem lexLeb_antisymm (a b : List Char) (h1 : lexLeb a b = true) (h2 : lexLeb b a = true) :
    a = b := by
  induction a generalizing b with
  | nil =>
    cases b with
    | nil => rfl
    | cons y ys => simp [lexLeb] at h2
  | cons x xs ih =>
    cases b with
    | nil => simp [lexLeb] at h1
    | cons y ys =>
      rw [lexLeb_cons] at h1 h2
      have hxy : x.toNat = y.toNat := by omega
      have hx : x = y := Char.ext (UInt32.ext hxy)
      rcases h1 with h1 | ⟨_, h1r⟩
      · omega
      · rcases h2 with h2 | ⟨_, h2r⟩
        · omega
        · rw [hx, ih ys h1r h2r]

theorem strLe_total (a b : String) : strLe a b ∨ strLe b a := lexLeb_total a.data b.data

theorem strLe_trans (a b c : String) (h1 : strLe a b) (h2 : strLe b c) : strLe a c :=
  lexLeb_trans a.data b.data c.data h1 h2

theorem strLe_antisymm (a b : String) (h1 : strLe a b) (h2 : strLe b a) : a = b :=
  String.ext (lexLeb_antisymm a.data b.data h1 h2)

theorem sortStrings_sorted (l : List String) : List.Sorted strLe (sortStrings l) :=
  @List.sorted_insertionSort String strLe _ ⟨strLe_total⟩ ⟨fun _ _ _ => strLe_trans _ _ _⟩ l

theorem sortStrings_perm (l : List String) : (sortStrings l).Perm l :=
  List.perm_insertionSort strLe l

theorem sortStrings_congr {l₁ l₂ : List String} (h : l₁.Perm l₂) :
    sortStrings l₁ = sortStrings l₂ :=
  @List.eq_of_perm_of_sorted String strLe ⟨fun _ _ => strLe_antisymm _ _⟩ _ _
    ((sortStrings_perm l₁).trans (h.trans (sortStrings_perm l₂).symm))
    (sortStrings_sorted l₁) (sortStrings_sorted l₂)

/-! ## Map lemmas -/

theorem mapLookup_cons_self {α : Type} (k : String) (v : α) (rest : AssocMap α) :
    mapGet? ((k, v) :: rest) k = some v := by
  simp [mapGet?, List.lookup]

theorem mapLookup_cons_ne {α : Type} (k k' : String) (v : α) (rest : AssocMap α)
    (h : k' ≠ k) : mapGet? ((k, v) :: rest) k' = mapGet? rest k' := by
  have hb : (k' == k) = false := beq_eq_false_iff_ne.mpr h
  simp [mapGet?, List.lookup, hb]

theorem mapGet_mapSet_self {α : Type} (m : AssocMap α) (k : String) (v : α) :
    mapGet? (mapSet m k v) k = some v := by
  induction m with
  | nil => simpa [mapSet] using mapLookup_cons_self k v []
  | cons kv rest ih =>
    obtain ⟨k', v'⟩ := kv
    by_cases h : k' = k
    · simpa [mapSet, h] using mapLookup_cons_self k v rest
    · rw [mapSet, if_neg h, mapLookup_cons_ne k' k v' _ (fun he => h he.symm)]
      exact ih

theorem mapGet_mapSet_ne {α : Type} (m : AssocMap α) (k k' : String) (v : α) (h : k' ≠ k) :
    mapGet? (mapSet m k v) k' = mapGet? m k' := by
  induction m with
  | nil => simpa [mapSet] using mapLookup_cons_ne k k' v [] h
  | cons kv rest ih =>
    obtain ⟨k0, v0⟩ := kv
    by_cases h0 : k0 = k
    · subst h0
      rw [mapSet, if_pos rfl, mapLookup_cons_ne k0 k' v _ h, mapLookup_cons_ne k0 k' v0 _ h]
    · rw [mapSet, if_neg h0]
      by_cases h1 : k' = k0
      · subst h1
        rw [mapLookup_cons_self, mapLookup_cons_self]
      · rw [mapLookup_cons_ne k0 k' v0 _ h1, mapLookup_cons_ne k0 k' v0 _ h1]
        exact ih

theorem mapGet_mapInsertAll {α : Type} (src dst : AssocMap α) (k : String) :
    mapGet? (mapInsertAll dst src) k =
      match mapGet? src.reverse k with
      | some v => some v
      | none => mapGet? dst k := by
  induction src generalizing dst with
  | nil => simp [mapInsertAll, mapGet?, List.lookup]
  | cons kv rest ih =>
    obtain ⟨k0, v0⟩ := kv
    show mapGet? (mapInsertAll (mapSet dst k0 v0) rest) k = _
    rw [ih]
    have hrev : mapGet? ((k0, v0) :: rest).reverse k =
        ((mapGet? rest.reverse k).or (mapGet? [(k0, v0)] k)) := by
      simp [mapGet?, List.reverse_cons, List.lookup_append]
    rw [hrev]
    rcases hr : mapGet? rest.reverse k with _ | v
    · simp only [Option.or]
      by_cases hk : k = k0
      · subst hk
        rw [mapLookup_cons_self, mapGet_mapSet_self]
      · rw [mapLookup_cons_ne k0 k v0 [] hk, mapGet_mapSet_ne dst k0 k v0 hk]
        rcases mapGet? dst k with _ | w <;> rfl
    · simp [Option.or]

theorem lookup_none_of_not_mem {α : Type} (m : AssocMap α) (k : String)
    (h : k ∉ m.map Prod.fst) : mapGet? m k = none := by
  induction m with
  | nil => rfl
  | cons kv rest ih =>
    obtain ⟨k0, v0⟩ := kv
    simp only [List.map, List.mem_cons, not_or] at h
    rw [mapLookup_cons_ne k0 k v0 _ h.1]
    exact ih h.2

theorem lookup_reverse_of_wf {α : Type} (m : AssocMap α) (h : mapWF m) (k : String) :
    mapGet? m.reverse k = mapGet? m k := by
  induction m with
  | nil => rfl
  | cons kv rest ih =>
    obtain ⟨k0, v0⟩ := kv
    have h' := h
    simp only [mapWF, List.map, List.nodup_cons] at h'
    obtain ⟨hk0, hrest⟩ := h'
    have hrev : mapGet? ((k0, v0) :: rest).reverse k =
        ((mapGet? rest.reverse k).or (mapGet? [(k0, v0)] k)) := by
      simp [mapGet?, List.reverse_cons, List.lookup_append]
    rw [hrev, ih hrest]
    by_cases hk : k = k0
    · subst hk
      rw [lookup_none_of_not_mem rest k hk0, mapLookup_cons_self, mapLookup_cons_self]
      rfl
    · rw [mapLookup_cons_ne k0 k v0 [] hk, mapLookup_cons_ne k0 k v0 rest hk]
      rcases mapGet? rest k with _ | v <;> rfl

theorem goMerge_lookup {α : Type} (defaults overrides : AssocMap α) (k : String)
    (hd : mapWF defaults) (ho : mapWF overrides) :
    mapGet? (goMerge defaults overrides) k =
      match mapGet? overrides k with
      | some v => some v
      | none => mapGet? defaults k := by
  show mapGet? (mapInsertAll (mapInsertAll [] defaults) overrides) k = _
  rw [mapGet_mapInsertAll, mapGet_mapInsertAll, lookup_reverse_of_wf _ hd,
    lookup_reverse_of_wf _ ho]
  rcases mapGet? overrides k with _ | v <;> rcases hdl : mapGet? defaults k with _ | w <;> rfl

/-! ## Filter composition (claim C7) -/

theorem intercalate_pair (sep a b : String) :
    String.intercalate sep [a, b] = a ++ sep ++ b := by
  cases a; cases b; cases sep
  simp [String.intercalate, String.intercalate.go]

/-- C7: the claim states `And(f1, f2) = "(f1) AND (f2)"`, but `filterSep`
joins the parenthesized operands with the bare separator `"AND"` (no
surrounding spaces), so the two-operand result is `"(f1)AND(f2)"`. -/
theorem claim_C7_counterexample : filter.And ["f1", "f2"] ≠ "(f1) AND (f2)" := by decide

/-- C7 (amended): `And`/`Or` of zero filters yield `""`, of one filter yield
it unwrapped, and of two filters yield the operands parenthesized and joined
with the bare operator keyword, with no spaces around it. -/
theorem claim_C7 :
    filter.And [] = "" ∧ filter.Or [] = "" ∧
    (∀ f, filter.And [f] = f ∧ filter.Or [f] = f) ∧
    (∀ f1 f2, filter.And [f1, f2] = "(" ++ f1 ++ ")AND(" ++ f2 ++ ")" ∧
      filter.Or [f1, f2] = "(" ++ f1 ++ ")OR(" ++ f2 ++ ")") := by
  refine ⟨rfl, rfl, fun f => ⟨rfl, rfl⟩, fun f1 f2 => ⟨?_, ?_⟩⟩
  · show String.intercalate "AND" ["(" ++ f1 ++ ")", "(" ++ f2 ++ ")"] = _
    rw [intercalate_pair]
    apply String.ext
    simp [String.data_append]
  · show String.intercalate "OR" ["(" ++ f1 ++ ")", "(" ++ f2 ++ ")"] = _
    rw [intercalate_pair]
    apply String.ext
    simp [String.data_append]

/-! ## Endpoint resolution (claim C9) -/

/-- C9: `Client.merge` reads `method[0]` unconditionally, so the empty method
string panics (modelled as the `panicEmptyMethod` outcome) rather than
returning an error; for non-empty methods the endpoint is the base URL and
the method joined with exactly one inserted `/` when the method does not
already start with one. -/
theorem claim_C9 :
    (∀ baseurl, resolveEndpoint baseurl "" = none) ∧
    (∀ client hdr ps, clientMerge client "" hdr ps = .error .panicEmptyMethod) ∧
    (∀ baseurl method, method ≠ "" →
      resolveEndpoint baseurl method =
        some (if method.data.head? = some '/' then baseurl ++ method
              else baseurl ++ "/" ++ method)) := by
  refine ⟨fun _ => rfl, fun _ _ _ => rfl, ?_⟩
  intro baseurl method hm
  rcases hd : method.data with _ | ⟨c, cs⟩
  · exact absurd (String.ext hd) hm
  · simp only [resolveEndpoint, hd]
    by_cases hc : c = '/'
    · simp [hc]
    · simp [hc, strAppend_assoc]

theorem claim_C9_witness :
    resolveEndpoint "https://x" "entity.count" = some "https://x/entity.count" ∧
    resolveEndpoint "https://x" "/entity" = some "https://x/entity" :=
  ⟨(claim_C9.2.2 "https://x" "entity.count" (by decide)).trans (by decide),
   (claim_C9.2.2 "https://x" "/entity" (by decide)).trans (by decide)⟩

/-! ## Content-type classification (claim C3) -/

/-- C3: a response is classified as JSON exactly when its Content-Type header,
stripped of parameters (from the first `;`) and surrounding white space,
equals `application/json` or `text/json`; `application/json; charset=UTF-8`
is JSON, and any other stripped value yields a content-type error carrying
the stripped media type. -/
theorem claim_C3 :
    (∀ hdr sc body, (∀ m, perform ⟨hdr, sc, body⟩ ≠ .error (.contentTypeErr m)) ↔
        (contentType hdr = "application/json" ∨ contentType hdr = "text/json")) ∧
    (∀ hdr sc body, ¬(contentType hdr = "application/json" ∨ contentType hdr = "text/json") →
        perform ⟨hdr, sc, body⟩ = .error (.contentTypeErr (contentType hdr))) ∧
    contentType "application/json; charset=UTF-8" = "application/json" := by
  have hperf : ∀ hdr sc body,
      ¬(contentType hdr = "application/json" ∨ contentType hdr = "text/json") →
      perform ⟨hdr, sc, body⟩ = .error (.contentTypeErr (contentType hdr)) := by
    intro hdr sc body hct
    simp only [perform]
    rw [if_neg hct]
  refine ⟨?_, hperf, by decide⟩
  intro hdr sc body
  constructor
  · intro h
    by_contra hct
    exact h (contentType hdr) (hperf hdr sc body hct)
  · intro hct m
    rcases body with _ | js
    · rcases hct with h | h <;> simp [perform, h]
    · by_cases hs : mustString (jsGet js "stat") = "ok" <;>
        rcases hct with h | h <;> simp [perform, h, hs]

theorem claim_C3_witness :
    perform ⟨"text/html", 200, none⟩ = .error (.contentTypeErr "text/html") := by
  have h := claim_C3.2.1 "text/html" 200 none (by decide)
  have he : contentType "text/html" = "text/html" := by decide
  rw [he] at h
  exact h

/-! ## Last-writer-wins merge (claim C2) -/

/-- C2: for any client-default map and call-override map (of any value type:
the header merge and the parameter merge are the same `goMerge` loop at
different types), a key present in the override resolves to the override's
value in the merged map, and a key absent from the override retains the
default's value. -/
theorem claim_C2 {α : Type} (defaults overrides : AssocMap α) (k : String)
    (hd : mapWF defaults) (ho : mapWF overrides) :
    (∀ v, mapGet? overrides k = some v → mapGet? (goMerge defaults overrides) k = some v) ∧
    (mapGet? overrides k = none → mapGet? (goMerge defaults overrides) k = mapGet? defaults k) := by
  constructor
  · intro v hv
    rw [goMerge_lookup defaults overrides k hd ho, hv]
  · intro hv
    rw [goMerge_lookup defaults overrides k hd ho, hv]

theorem claim_C2_witness :
    mapGet? (goMerge [("a", "1"), ("b", "2")] [("b", "3"), ("c", "4")]) "b" = some "3" ∧
    mapGet? (goMerge [("a", "1"), ("b", "2")] [("b", "3"), ("c", "4")]) "a" = some "1" :=
  ⟨(claim_C2 [("a", "1"), ("b", "2")] [("b", "3"), ("c", "4")] "b"
      (by decide) (by decide)).1 "3" (by decide),
   ((claim_C2 [("a", "1"), ("b", "2")] [("b", "3"), ("c", "4")] "a"
      (by decide) (by decide)).2 (by decide)).trans (by decide)⟩

/-! ## Remote errors (claims C5, C10) -/

theorem perform_remote (hdr : String) (sc : Nat) (js : JsonVal)
    (hct : contentType hdr = "application/json" ∨ contentType hdr = "text/json")
    (hstat : mustString (jsGet js "stat") ≠ "ok") :
    perform ⟨hdr, sc, some js⟩ = .error (.remote (NewRemoteError ⟨hdr, sc, some js⟩ js)) := by
  rcases hct with h | h <;> simp [perform, h, hstat]

/-- C5: a JSON response whose envelope's `stat` is not `"ok"` yields a Remote
Error whose kind, description and code are the envelope's `error`,
`error_description` and `code` fields, and whose message contains both the
kind and the description. -/
theorem claim_C5 (hdr : String) (sc : Nat) (js : JsonVal) (knd dsc : String) (cd : Int)
    (hct : contentType hdr = "application/json" ∨ contentType hdr = "text/json")
    (hstat : mustString (jsGet js "stat") ≠ "ok")
    (hk : jsGet js "error" = .str knd)
    (hd : jsGet js "error_description" = .str dsc)
    (hc : jsGet js "code" = .num cd) :
    perform ⟨hdr, sc, some js⟩ = .error (.remote (NewRemoteError ⟨hdr, sc, some js⟩ js)) ∧
    (NewRemoteError ⟨hdr, sc, some js⟩ js).Kind = knd ∧
    (NewRemoteError ⟨hdr, sc, some js⟩ js).Description = dsc ∧
    (NewRemoteError ⟨hdr, sc, some js⟩ js).Code = cd ∧
    (∃ x y, (NewRemoteError ⟨hdr, sc, some js⟩ js).errMsg = x ++ knd ++ y) ∧
    (∃ x y, (NewRemoteError ⟨hdr, sc, some js⟩ js).errMsg = x ++ dsc ++ y) := by
  refine ⟨perform_remote hdr sc js hct hstat, ?_, ?_, ?_, ?_, ?_⟩
  · simp [NewRemoteError, hk, mustString]
  · simp [NewRemoteError, hd, mustString]
  · simp [NewRemoteError, hc, mustInt]
  · refine ⟨"[", "] " ++ dsc, ?_⟩
    simp only [RemoteError.errMsg, NewRemoteError, hk, hd, mustString]
    apply String.ext
    simp [String.data_append]
  · refine ⟨"[" ++ knd ++ "] ", "", ?_⟩
    simp only [RemoteError.errMsg, NewRemoteError, hk, hd, mustString]
    apply String.ext
    simp [String.data_append]

theorem claim_C5_witness :
    perform ⟨"application/json", 400,
        some (.obj [("stat", .str "error"), ("code", .num 400),
                    ("error", .str "invalid_request"),
                    ("error_description", .str "bad filter")])⟩ =
      .error (.remote (NewRemoteError
        ⟨"application/json", 400,
          some (.obj [("stat", .str "error"), ("code", .num 400),
                      ("error", .str "invalid_request"),
                      ("error_description", .str "bad filter")])⟩
        (.obj [("stat", .str "error"), ("code", .num 400),
               ("error", .str "invalid_request"),
               ("error_description", .str "bad filter")]))) ∧
    (NewRemoteError
        ⟨"application/json", 400,
          some (.obj [("stat", .str "error"), ("code", .num 400),
                      ("error", .str "invalid_request"),
                      ("error_description", .str "bad filter")])⟩
        (.obj [("stat", .str "error"), ("code", .num 400),
               ("error", .str "invalid_request"),
               ("error_description", .str "bad filter")])).Kind = "invalid_request" := by
  have h := claim_C5 "application/json" 400
    (.obj [("stat", .str "error"), ("code", .num 400),
           ("error", .str "invalid_request"), ("error_description", .str "bad filter")])
    "invalid_request" "bad filter" 400
    (Or.inl (by decide)) (by simp [jsGet, mustString, List.lookup]) rfl rfl rfl
  exact ⟨h.1, h.2.1⟩

/-- C10: a JSON body that decodes to any value without a string `stat` field
equal to `"ok"` — an array, a number, an object missing the field — yields a
Remote Error (with the zero value for each absent envelope field), never a
success payload and never a decode error. -/
theorem claim_C10 (hdr : String) (sc : Nat) (js : JsonVal)
    (hct : contentType hdr = "application/json" ∨ contentType hdr = "text/json")
    (hstat : mustString (jsGet js "stat") ≠ "ok") :
    perform ⟨hdr, sc, some js⟩ = .error (.remote (NewRemoteError ⟨hdr, sc, some js⟩ js)) ∧
    (jsGet js "error" = .null → (NewRemoteError ⟨hdr, sc, some js⟩ js).Kind = "") ∧
    (jsGet js "code" = .null → (NewRemoteError ⟨hdr, sc, some js⟩ js).Code = 0) ∧
    (jsGet js "error_description" = .null →
      (NewRemoteError ⟨hdr, sc, some js⟩ js).Description = "") ∧
    (jsGet js "request_id" = .null → (NewRemoteError ⟨hdr, sc, some js⟩ js).RequestId = "") ∧
    (∀ v, perform ⟨hdr, sc, some js⟩ ≠ .ok v) ∧
    perform ⟨hdr, sc, some js⟩ ≠ .error .jsonDecoder := by
  have hp := perform_remote hdr sc js hct hstat
  refine ⟨hp, ?_, ?_, ?_, ?_, ?_, ?_⟩
  · intro h; simp [NewRemoteError, h, mustString]
  · intro h; simp [NewRemoteError, h, mustInt]
  · intro h; simp [NewRemoteError, h, mustString]
  · intro h; simp [NewRemoteError, h, mustString]
  · intro v h
    rw [hp] at h
    exact Except.noConfusion h
  · intro h
    rw [hp] at h
    injection h with h2
    exact CaptureError.noConfusion h2

theorem claim_C10_witness :
    perform ⟨"application/json", 200, some (.arr [.num 1, .num 2])⟩ =
      .error (.remote (NewRemoteError ⟨"application/json", 200, some (.arr [.num 1, .num 2])⟩
        (.arr [.num 1, .num 2]))) ∧
    (NewRemoteError ⟨"application/json", 200, some (.arr [.num 1, .num 2])⟩
        (.arr [.num 1, .num 2])).Kind = "" ∧
    (NewRemoteError ⟨"application/json", 200, some (.arr [.num 1, .num 2])⟩
        (.arr [.num 1, .num 2])).Code = 0 := by
  have h := claim_C10 "application/json" 200 (.arr [.num 1, .num 2])
    (Or.inl (by decide)) (by simp [jsGet, mustString])
  exact ⟨h.1, h.2.1 rfl, h.2.2.1 rfl⟩

/-! ## Parameter serialization and failure propagation (claim C4) -/

theorem formValuesGo_not_mem (ps : Params) (k : String) :
    ∀ acc vals : ValuesMap, k ∉ ps.map Prod.fst → formValuesGo ps acc = some vals →
      mapGet? vals k = mapGet? acc k := by
  induction ps with
  | nil =>
    intro acc vals _ h
    simp only [formValuesGo, Option.some.injEq] at h
    rw [h]
  | cons kv rest ih =>
    intro acc vals hk h
    obtain ⟨k0, v0⟩ := kv
    simp only [List.map, List.mem_cons, not_or] at hk
    rcases hv : formValue1 v0 with _ | val
    · rw [formValuesGo, hv] at h
      exact Option.noConfusion h
    · rw [formValuesGo, hv] at h
      rw [ih _ vals hk.2 h]
      simp only [valuesSet]
      rw [mapGet_mapSet_ne acc k0 k [val] hk.1]

theorem formValues_lookup (ps : Params) (k : String) (v : GoValue) :
    ∀ acc vals : ValuesMap, mapWF ps → mapGet? ps k = some v →
      formValuesGo ps acc = some vals →
      ∃ s, formValue1 v = some s ∧ mapGet? vals k = some [s] := by
  induction ps with
  | nil => intro acc vals _ hlk _; exact Option.noConfusion hlk
  | cons kv rest ih =>
    intro acc vals hnd hlk h
    obtain ⟨k0, v0⟩ := kv
    simp only [mapWF, List.map, List.nodup_cons] at hnd
    obtain ⟨hk0, hrest⟩ := hnd
    by_cases hk : k = k0
    · subst hk
      rw [mapLookup_cons_self] at hlk
      have hv0 : v0 = v := by injection hlk
      rcases hv : formValue1 v0 with _ | val
      · rw [formValuesGo, hv] at h
        exact Option.noConfusion h
      · rw [formValuesGo, hv] at h
        refine ⟨val, hv0 ▸ hv, ?_⟩
        rw [formValuesGo_not_mem rest k _ vals hk0 h]
        simp only [valuesSet]
        rw [mapGet_mapSet_self]
    · rw [mapLookup_cons_ne k0 k v0 rest hk] at hlk
      rcases hv : formValue1 v0 with _ | val
      · rw [formValuesGo, hv] at h
        exact Option.noConfusion h
      · rw [formValuesGo, hv] at h
        exact ih _ vals hrest hlk h

theorem formValuesGo_fail (ps : Params) (kv : String × GoValue) (hmem : kv ∈ ps)
    (hbad : formValue1 kv.2 = none) : ∀ acc, formValuesGo ps acc = none := by
  induction ps with
  | nil => cases hmem
  | cons hd rest ih =>
    intro acc
    obtain ⟨k0, v0⟩ := hd
    rcases List.mem_cons.mp hmem with h | h
    · rw [h] at hbad
      rw [formValuesGo, hbad]
    · rcases hv : formValue1 v0 with _ | val
      · rw [formValuesGo, hv]
      · rw [formValuesGo, hv]
        exact ih h _

theorem resolveEndpoint_isSome (baseurl method : String) (hm : method ≠ "") :
    ∃ e, resolveEndpoint baseurl method = some e := by
  rcases hd : method.data with _ | ⟨c, cs⟩
  · exact absurd (String.ext hd) hm
  · refine ⟨(if c ≠ '/' then baseurl ++ "/" else baseurl) ++ method, ?_⟩
    simp only [resolveEndpoint, hd]

/-- C4: every non-string parameter of the merged bag reaches the form values
as its JSON text, and a marshal failure anywhere in the merged bag makes the
whole call return the hard marshal error — for every transport and every
authorization strategy, so nothing is signed and no request is dispatched
after the failure. -/
theorem claim_C4 :
    (∀ (ps : Params) (vals : ValuesMap) (k : String) (j : JsonVal),
      mapWF ps → mapGet? ps k = some (.json j) → formValues ps = some vals →
      mapGet? vals k = some [renderJson j]) ∧
    (∀ (client : GoClient) (auth : Option AuthFun) (method : String) (header : ValuesMap)
        (params : Params) (send : GoRequest → Option HttpResp) (kv : String × GoValue),
      method ≠ "" → kv ∈ goMerge client.params params → formValue1 kv.2 = none →
      ExecuteAuth client auth method header params send = .error .marshal) := by
  constructor
  · intro ps vals k j hnd hlk h
    obtain ⟨s, hs, hv⟩ := formValues_lookup ps k (.json j) [] vals hnd hlk h
    simp only [formValue1, jsonMarshal, Option.some.injEq] at hs
    rw [hv, hs]
  · intro client auth method header params send kv hm hmem hbad
    obtain ⟨e, he⟩ := resolveEndpoint_isSome client.baseurl method hm
    have hfv : formValues (goMerge client.params params) = none :=
      formValuesGo_fail _ kv hmem hbad []
    simp [ExecuteAuth, clientMerge, he, hfv]

theorem claim_C4_witness :
    mapGet? [("a", ["null"])] "a" = some [renderJson JsonVal.null] ∧
    ExecuteAuth ⟨"https://x", none, [], []⟩ none "m" [] [("bad", GoValue.bad)]
        (fun _ => none) = .error .marshal := by
  constructor
  · exact claim_C4.1 [("a", .json .null)] [("a", ["null"])] "a" .null
      (by decide) rfl
      (by simp [formValues, formValuesGo, formValue1, jsonMarshal, renderJson, valuesSet, mapSet])
  · exact claim_C4.2 ⟨"https://x", none, [], []⟩ none "m" [] [("bad", GoValue.bad)]
      (fun _ => none) ("bad", GoValue.bad) (by decide)
      (by simp [goMerge, mapInsertAll, mapSet]) rfl

/-! ## HMAC canonical string and signature (claims C1, C6) -/

theorem foldl_append_nl (l : List String) (acc : String) :
    l.foldl (fun a p => a ++ p ++ "\n") acc
      = acc ++ String.join (l.map (fun p => p ++ "\n")) := by
  induction l generalizing acc with
  | nil =>
    show acc = acc ++ String.join []
    rw [show String.join [] = "" from rfl, String.append_empty]
  | cons x xs ih =>
    rw [List.foldl_cons, List.map_cons, ih, strJoin_cons]
    apply String.ext
    simp [String.data_append, List.append_assoc]

/-- C1: the canonical signing string is exactly the URL path, a newline, the
second-precision fixed-format timestamp, a newline, then every `key=value`
line drawn from the final form values (values not URL-encoded), sorted
lexicographically by the full `key=value` text, each followed by a newline;
the signature is standard base64 of HMAC-SHA1 of that string under the
secret, and `Authorize` sets the `Date` header to the timestamp and the
`Authorization` header to `Signature <id>:<signature>`. -/
theorem claim_C1 (creds : ClientCredentials) (now : GoTime) (path : String)
    (header values : ValuesMap) :
    canonicalString path (authTimestamp now) values =
      path ++ "\n" ++ authTimestamp now ++ "\n"
        ++ String.join ((sortStrings (kvPairs values)).map (fun p => p ++ "\n")) ∧
    List.Sorted strLe (sortStrings (kvPairs values)) ∧
    (sortStrings (kvPairs values)).Perm (kvPairs values) ∧
    mapGet? (creds.Authorize now path header values) "Date" = some [authTimestamp now] ∧
    mapGet? (creds.Authorize now path header values) "Authorization" =
      some ["Signature " ++ creds.Id ++ ":"
        ++ base64Encode (hmacSha1 (strBytes creds.Secret)
            (strBytes (canonicalString path (authTimestamp now) values)))] := by
  refine ⟨?_, sortStrings_sorted _, sortStrings_perm _, ?_, ?_⟩
  · show (sortStrings (kvPairs values)).foldl (fun a p => a ++ p ++ "\n")
        (path ++ "\n" ++ authTimestamp now ++ "\n") = _
    rw [foldl_append_nl]
  · show mapGet? (mapSet (mapSet header "Date" [authTimestamp now]) "Authorization" _)
        "Date" = _
    rw [mapGet_mapSet_ne _ "Authorization" "Date" _ (by decide), mapGet_mapSet_self]
  · show mapGet? (mapSet (mapSet header "Date" [authTimestamp now]) "Authorization" _)
        "Authorization" = _
    rw [mapGet_mapSet_self]
    rfl

/-- C6: signing is deterministic and independent of the iteration order of
the form-value collection: if two value collections present the same multiset
of `key=value` lines, the canonical strings, the signatures, and the
authorized headers coincide. -/
theorem claim_C6 (creds : ClientCredentials) (now : GoTime) (path ts : String)
    (header values₁ values₂ : ValuesMap)
    (h : (kvPairs values₁).Perm (kvPairs values₂)) :
    canonicalString path ts values₁ = canonicalString path ts values₂ ∧
    hmacSignature creds.Secret (canonicalString path ts values₁) =
      hmacSignature creds.Secret (canonicalString path ts values₂) ∧
    creds.Authorize now path header values₁ = creds.Authorize now path header values₂ := by
  have hc : ∀ ts' : String, canonicalString path ts' values₁ = canonicalString path ts' values₂ := by
    intro ts'
    simp only [canonicalString]
    rw [sortStrings_congr h]
  exact ⟨hc ts, by rw [hc ts], by
    simp only [ClientCredentials.Authorize]
    rw [hc (authTimestamp now)]⟩

theorem claim_C6_witness :
    canonicalString "/entity.count" "2013-05-22 13:05:09" [("b", ["2"]), ("a", ["1"])] =
      canonicalString "/entity.count" "2013-05-22 13:05:09" [("a", ["1"]), ("b", ["2"])] :=
  (claim_C6 ⟨"id", "secret"⟩ ⟨2013, 5, 22, 13, 5, 9, 0, 0⟩ "/entity.count"
    "2013-05-22 13:05:09" [] [("b", ["2"]), ("a", ["1"])] [("a", ["1"]), ("b", ["2"])]
    (by decide)).1

/-! ## Round-tripping the two time layouts (claim C8) -/

theorem data_mk (l : List Char) : (String.mk l).data = l := rfl

theorem digitVal_digitChar (d : Nat) (h : d < 10) : digitVal (digitChar d) = d := by
  interval_cases d <;> rfl

theorem isDigitChar_digitChar (d : Nat) (h : d < 10) : isDigitChar (digitChar d) = true := by
  interval_cases d <;> rfl

theorem digitChar_eq_zeroChar (d : Nat) (h : d < 10) : (digitChar d = '0') ↔ d = 0 := by
  interval_cases d <;> simp [digitChar]

theorem readDigit_digitChar (d : Nat) (h : d < 10) : readDigit (digitChar d) = some d := by
  rw [readDigit, if_pos (isDigitChar_digitChar d h), digitVal_digitChar d h]

theorem read2_pad2 (n : Nat) (h : n < 100) (rest : List Char) :
    read2 (pad2 n ++ rest) = some (n, rest) := by
  have e : pad2 n ++ rest = digitChar (n / 10) :: digitChar (n % 10) :: rest := rfl
  have hr1 := readDigit_digitChar (n / 10) (by omega)
  have hr2 := readDigit_digitChar (n % 10) (by omega)
  have hv : n / 10 * 10 + n % 10 = n := by omega
  simp only [e, read2, hr1, hr2, hv]

theorem read4_pad4 (n : Nat) (h : n < 10000) (rest : List Char) :
    read4 (pad4 n ++ rest) = some (n, rest) := by
  have e : pad4 n ++ rest = digitChar (n / 1000) :: digitChar (n / 100 % 10) ::
      digitChar (n / 10 % 10) :: digitChar (n % 10) :: rest := rfl
  have hr1 := readDigit_digitChar (n / 1000) (by omega)
  have hr2 := readDigit_digitChar (n / 100 % 10) (by omega)
  have hr3 := readDigit_digitChar (n / 10 % 10) (by omega)
  have hr4 := readDigit_digitChar (n % 10) (by omega)
  have hv : ((n / 1000 * 10 + n / 100 % 10) * 10 + n / 10 % 10) * 10 + n % 10 = n := by omega
  simp only [e, read4, hr1, hr2, hr3, hr4, hv]

theorem expectChar_cons (c : Char) (rest : List Char) : expectChar c (c :: rest) = some rest := by
  rw [expectChar, if_pos rfl]

theorem parseDateFields_dateChars (t : GoTime) (hy : t.year ≤ 9999) (hmo : t.month < 100)
    (hd : t.day < 100) (rest : List Char) :
    parseDateFields (dateChars t ++ rest) = some ((t.year, t.month, t.day), rest) := by
  have e : dateChars t ++ rest =
      pad4 t.year ++ ('-' :: (pad2 t.month ++ ('-' :: (pad2 t.day ++ rest)))) := by
    simp [dateChars, List.append_assoc]
  have h4 := read4_pad4 t.year (by omega) ('-' :: (pad2 t.month ++ ('-' :: (pad2 t.day ++ rest))))
  have h2a := read2_pad2 t.month hmo ('-' :: (pad2 t.day ++ rest))
  have h2b := read2_pad2 t.day hd rest
  simp only [e, parseDateFields, h4, h2a, h2b, expectChar_cons]

theorem padRev_length (k n : Nat) : (padRev k n).length = k := by
  induction k generalizing n with
  | zero => rfl
  | succ k ih => simp [padRev, ih]

theorem padRev_digits (k n : Nat) : ∀ c ∈ padRev k n, ∃ d, d < 10 ∧ c = digitChar d := by
  induction k generalizing n with
  | zero => intro c hc; cases hc
  | succ k ih =>
    intro c hc
    rcases List.mem_cons.mp hc with h | h
    · exact ⟨n % 10, by omega, h⟩
    · exact ih (n / 10) c h

theorem digitsVal_append_digit (xs : List Char) (c : Char) :
    digitsVal (xs ++ [c]) = digitsVal xs * 10 + digitVal c := by
  simp [digitsVal, List.foldl_append]

theorem digitsVal_padDigits (k n : Nat) (h : n < 10 ^ k) : digitsVal (padDigits k n) = n := by
  induction k generalizing n with
  | zero =>
    have : n = 0 := by simpa using h
    simp [this, padDigits, padRev, digitsVal]
  | succ k ih =>
    have hdiv : n / 10 < 10 ^ k := by
      apply Nat.div_lt_of_lt_mul
      rw [Nat.mul_comm]
      simpa [Nat.pow_succ] using h
    have e : padDigits (k + 1) n = padDigits k (n / 10) ++ [digitChar (n % 10)] := by
      simp [padDigits, padRev]
    rw [e, digitsVal_append_digit, ih (n / 10) hdiv, digitVal_digitChar _ (by omega)]
    omega

theorem trim_padRev (k : Nat) : ∀ n : Nat, n < 10 ^ k → n ≠ 0 →
    ((padRev k n).dropWhile (fun c => c = '0')) ≠ [] ∧
    ((padRev k n).dropWhile (fun c => c = '0')).length ≤ k ∧
    (∀ c ∈ ((padRev k n).dropWhile (fun c => c = '0')).reverse, isDigitChar c = true) ∧
    digitsVal ((padRev k n).dropWhile (fun c => c = '0')).reverse
      * 10 ^ (k - ((padRev k n).dropWhile (fun c => c = '0')).length) = n := by
  induction k with
  | zero =>
    intro n hk hn
    exact absurd (by simpa using hk) hn
  | succ k ih =>
    intro n hk hn
    by_cases hm : n % 10 = 0
    · have hz : (digitChar (n % 10) = '0') := by
        rw [digitChar_eq_zeroChar _ (by omega)]
        exact hm
      have e : (padRev (k + 1) n).dropWhile (fun c => c = '0')
          = (padRev k (n / 10)).dropWhile (fun c => c = '0') := by
        simp [padRev, List.dropWhile_cons, hz]
      have hn10 : n / 10 ≠ 0 := by omega
      have hk10 : n / 10 < 10 ^ k := by
        apply Nat.div_lt_of_lt_mul
        rw [Nat.mul_comm]
        simpa [Nat.pow_succ] using hk
      obtain ⟨h1, h2, h3, h4⟩ := ih (n / 10) hk10 hn10
      refine ⟨e ▸ h1, e ▸ (by omega), e ▸ h3, ?_⟩
      rw [e]
      have hexp : k + 1 - ((padRev k (n / 10)).dropWhile (fun c => c = '0')).length
          = (k - ((padRev k (n / 10)).dropWhile (fun c => c = '0')).length) + 1 := by omega
      rw [hexp, Nat.pow_succ, ← Nat.mul_assoc, h4]
      omega
    · have hz : ¬ (digitChar (n % 10) = '0') := by
        rw [digitChar_eq_zeroChar _ (by omega)]
        exact hm
      have e : (padRev (k + 1) n).dropWhile (fun c => c = '0')
          = digitChar (n % 10) :: padRev k (n / 10) := by
        simp [padRev, List.dropWhile_cons, hz]
      have hk10 : n / 10 < 10 ^ k := by
        apply Nat.div_lt_of_lt_mul
        rw [Nat.mul_comm]
        simpa [Nat.pow_succ] using hk
      refine ⟨by simp [e], by simp [e, padRev_length], ?_, ?_⟩
      · intro c hc
        rw [e] at hc
        simp only [List.reverse_cons, List.mem_append, List.mem_reverse,
          List.mem_singleton] at hc
        rcases hc with h | h
        · obtain ⟨d, hd10, rfl⟩ := padRev_digits k (n / 10) c h
          exact isDigitChar_digitChar d hd10
        · rw [h]
          exact isDigitChar_digitChar _ (by omega)
      · rw [e]
        have elen : (digitChar (n % 10) :: padRev k (n / 10)).length = k + 1 := by
          simp [padRev_length]
        rw [elen, Nat.sub_self, Nat.pow_zero, Nat.mul_one]
        have erev : (digitChar (n % 10) :: padRev k (n / 10)).reverse
            = padDigits k (n / 10) ++ [digitChar (n % 10)] := by
          simp [padDigits]
        rw [erev, digitsVal_append_digit, digitsVal_padDigits k (n / 10) hk10,
          digitVal_digitChar _ (by omega)]
        omega

theorem takeWhile_all_append (p : Char → Bool) (xs : List Char) (y : Char) (ys : List Char)
    (hx : ∀ c ∈ xs, p c = true) (hy : p y = false) :
    (xs ++ y :: ys).takeWhile p = xs ∧ (xs ++ y :: ys).dropWhile p = y :: ys := by
  induction xs with
  | nil => simp [List.takeWhile_cons, List.dropWhile_cons, hy]
  | cons x xs ih =>
    have hpx : p x = true := hx x (List.mem_cons_self x xs)
    have hrest : ∀ c ∈ xs, p c = true := fun c hc => hx c (List.mem_cons_of_mem x hc)
    obtain ⟨h1, h2⟩ := ih hrest
    simp [List.takeWhile_cons, List.dropWhile_cons, hpx, h1, h2]

theorem parseOptFrac_fracChars (n : Nat) (hn : n ≤ 999999999) (rest : List Char) :
    parseOptFrac (fracChars n ++ ' ' :: rest) = some (n, ' ' :: rest) := by
  by_cases h0 : n = 0
  · subst h0
    rfl
  · obtain ⟨hne, hlen, hdig, hval⟩ := trim_padRev 9 n (by omega) h0
    have e : fracChars n ++ ' ' :: rest
        = '.' :: (((padRev 9 n).dropWhile (fun c => c = '0')).reverse ++ ' ' :: rest) := by
      simp [fracChars, h0]
    have hsp : isDigitChar ' ' = false := rfl
    obtain ⟨ht, hdw⟩ := takeWhile_all_append isDigitChar
      ((padRev 9 n).dropWhile (fun c => c = '0')).reverse ' ' rest hdig hsp
    rw [e]
    simp only [parseOptFrac, ht, hdw]
    have hlen' : (((padRev 9 n).dropWhile (fun c => c = '0')).reverse).length =
        ((padRev 9 n).dropWhile (fun c => c = '0')).length := by simp
    rw [if_neg (by
      rw [hlen']
      push_neg
      constructor
      · intro hc
        exact hne (List.eq_nil_of_length_eq_zero hc)
      · omega)]
    rw [hlen', hval]

theorem parseOff_offChars (off : Int) (hoff : off.natAbs ≤ 1439) (rest : List Char) :
    parseOff (offChars off ++ rest) = some (off, rest) := by
  have h60a : off.natAbs / 60 < 100 := by omega
  have h60b : off.natAbs % 60 < 100 := by omega
  have harith : off.natAbs / 60 * 60 + off.natAbs % 60 = off.natAbs := by omega
  by_cases hneg : off < 0
  · have e : offChars off ++ rest
        = '-' :: (pad2 (off.natAbs / 60) ++ (pad2 (off.natAbs % 60) ++ rest)) := by
      simp [offChars, hneg, List.append_assoc]
    have hp1 := read2_pad2 (off.natAbs / 60) h60a (pad2 (off.natAbs % 60) ++ rest)
    have hp2 := read2_pad2 (off.natAbs % 60) h60b rest
    simp only [e, parseOff, if_pos (Or.inr rfl), hp1, hp2, if_pos rfl]
    have hres : -((off.natAbs / 60 * 60 + off.natAbs % 60 : Nat) : Int) = off := by
      rw [harith]
      omega
    rw [hres]
    simp
  · have e : offChars off ++ rest
        = '+' :: (pad2 (off.natAbs / 60) ++ (pad2 (off.natAbs % 60) ++ rest)) := by
      simp [offChars, hneg, List.append_assoc]
    have hp1 := read2_pad2 (off.natAbs / 60) h60a (pad2 (off.natAbs % 60) ++ rest)
    have hp2 := read2_pad2 (off.natAbs % 60) h60b rest
    simp only [e, parseOff, if_pos (Or.inl rfl), hp1, hp2,
      if_neg (by decide : ¬ ('+' : Char) = '-')]
    have hres : ((off.natAbs / 60 * 60 + off.natAbs % 60 : Nat) : Int) = off := by
      rw [harith]
      omega
    rw [hres]
    simp

theorem daysInMonth_le (y m : Nat) : daysInMonth y m ≤ 31 := by
  rw [daysInMonth]
  split
  · split <;> omega
  · split <;> omega

theorem TimeParse_Timestamp (t : GoTime) (hv : t.valid) : TimeParse (Timestamp t) = some t := by
  obtain ⟨hy, hmo1, hmo2, hd1, hd2, hh, hmi, hs, hns, hoff⟩ := hv
  have hdm := daysInMonth_le t.year t.month
  have e : (Timestamp t).data
      = dateChars t
        ++ (' ' :: (pad2 t.hour ++ (':' :: (pad2 t.minute ++ (':' :: (pad2 t.sec
          ++ (fracChars t.nanos ++ (' ' :: offChars t.offMin)))))))) := by
    simp [Timestamp, timestampChars, data_mk, List.append_assoc]
  have hpd := parseDateFields_dateChars t hy (by omega) (by omega)
    (' ' :: (pad2 t.hour ++ (':' :: (pad2 t.minute ++ (':' :: (pad2 t.sec
      ++ (fracChars t.nanos ++ (' ' :: offChars t.offMin))))))))
  have h2h := read2_pad2 t.hour (by omega)
    (':' :: (pad2 t.minute ++ (':' :: (pad2 t.sec
      ++ (fracChars t.nanos ++ (' ' :: offChars t.offMin))))))
  have h2m := read2_pad2 t.minute (by omega)
    (':' :: (pad2 t.sec ++ (fracChars t.nanos ++ (' ' :: offChars t.offMin))))
  have h2s := read2_pad2 t.sec (by omega) (fracChars t.nanos ++ (' ' :: offChars t.offMin))
  have hfr := parseOptFrac_fracChars t.nanos hns (offChars t.offMin)
  have hof : parseOff (offChars t.offMin) = some (t.offMin, []) := by
    have hp := parseOff_offChars t.offMin hoff []
    rwa [List.append_nil] at hp
  have hcd : checkDate t.year t.month t.day = true := by
    simp only [checkDate, Bool.and_eq_true, decide_eq_true_eq]
    exact ⟨⟨⟨hmo1, hmo2⟩, hd1⟩, hd2⟩
  have hcl : checkClock t.hour t.minute t.sec = true := by
    simp only [checkClock, Bool.and_eq_true, decide_eq_true_eq]
    exact ⟨⟨hh, hmi⟩, hs⟩
  simp only [TimeParse, e, hpd, expectChar_cons, h2h, h2m, h2s, hfr, hof, hcd, hcl,
    Bool.and_self, if_true]

theorem DateParse_Datestamp (t : GoTime) (hv : t.valid) :
    DateParse (Datestamp t) = some ⟨t.year, t.month, t.day, 0, 0, 0, 0, 0⟩ := by
  obtain ⟨hy, hmo1, hmo2, hd1, hd2, _, _, _, _, _⟩ := hv
  have hdm := daysInMonth_le t.year t.month
  have hpd : parseDateFields (Datestamp t).data = some ((t.year, t.month, t.day), []) := by
    have e : (Datestamp t).data = dateChars t ++ [] := by
      simp [Datestamp, data_mk]
    rw [e]
    exact parseDateFields_dateChars t hy (by omega) (by omega) []
  have hcd : checkDate t.year t.month t.day = true := by
    simp only [checkDate, Bool.and_eq_true, decide_eq_true_eq]
    exact ⟨⟨⟨hmo1, hmo2⟩, hd1⟩, hd2⟩
  simp only [DateParse, hpd, hcd, if_true]

/-- C8 counterexample: the claim as stated fails for the date-only format — a
time with a non-zero clock formats to a bare date, which re-parses to
midnight UTC, a different instant. -/
theorem claim_C8_counterexample :
    DateParse (Datestamp ⟨2013, 5, 22, 13, 5, 9, 0, 0⟩) = some ⟨2013, 5, 22, 0, 0, 0, 0, 0⟩ ∧
    toEpochNanos ⟨2013, 5, 22, 0, 0, 0, 0, 0⟩ ≠ toEpochNanos ⟨2013, 5, 22, 13, 5, 9, 0, 0⟩ := by
  constructor
  · decide
  · decide

/-- C8 (amended): for every time value with in-range fields (four-digit year),
the full timestamp format round-trips exactly through parse/format (the
parsed value is field-identical, hence an equal instant); the date-only
format re-parses to midnight UTC of the formatted calendar date, which is an
equal instant exactly when the original time itself denotes midnight UTC
(clock minus offset zero, zero nanoseconds). -/
theorem claim_C8 (t : GoTime) (hv : t.valid) :
    TimeParse (Timestamp t) = some t ∧
    DateParse (Datestamp t) = some ⟨t.year, t.month, t.day, 0, 0, 0, 0, 0⟩ ∧
    (toEpochNanos ⟨t.year, t.month, t.day, 0, 0, 0, 0, 0⟩ = toEpochNanos t ↔
      ((t.hour : Int) * 3600 + (t.minute : Int) * 60 + (t.sec : Int) - t.offMin * 60 = 0
        ∧ t.nanos = 0)) := by
  refine ⟨TimeParse_Timestamp t hv, DateParse_Datestamp t hv, ?_⟩
  obtain ⟨hy, hmo1, hmo2, hd1, hd2, hh, hmi, hs, hns, hoff⟩ := hv
  simp only [toEpochNanos]
  generalize daysFromCivil t.year t.month t.day = D
  omega

theorem claim_C8_witness :
    (⟨2013, 5, 22, 13, 5, 9, 123000000, -420⟩ : GoTime).valid ∧
    TimeParse (Timestamp ⟨2013, 5, 22, 13, 5, 9, 123000000, -420⟩) =
      some ⟨2013, 5, 22, 13, 5, 9, 123000000, -420⟩ :=
  ⟨by decide, (claim_C8 ⟨2013, 5, 22, 13, 5, 9, 123000000, -420⟩ (by decide)).1⟩
